import Mathlib
/-!
Verification development for the `autocodegen` project-scaffolding
generator.  The definitions below are a shallow embedding of the
Python sources `src/autocodegen/_internal/expand.py`,
`src/autocodegen/_internal/config.py` and `src/autocodegen/run.py`.

Filesystem paths are modelled as lists of path components
(`AcgPath`); Python's `pathlib.Path.is_relative_to` becomes the list
prefix relation, `path / name` becomes appending a component, and
Python string slicing on path strings is modelled over `String.data`.
-/

/-- A filesystem path, as its list of components. -/
abbrev AcgPath := List String

namespace Acg

/-- Python `s[:-n]` / `str.removesuffix` building block: keep all but
the last `n` characters (empty result when `n ≥ len(s)`). -/
def strDropRight (s : String) (n : Nat) : String :=
  ⟨s.data.take (s.data.length - n)⟩

/-- Python `str.endswith`. -/
def strEndsWith (s suffix : String) : Bool :=
  suffix.data.isSuffixOf s.data

/-- Python `str.removesuffix`: strip `suffix` when present, otherwise
return the string unchanged. -/
def strRemoveSuffix (s suffix : String) : String :=
  if strEndsWith s suffix then strDropRight s suffix.length else s

/-- The `AcgExt` enumeration from `_internal/expand.py` (lines 27-37):
the six suffix-delimited artifact kinds overlaid on filenames (the
two rename kinds each pair a marker with a renamer-script suffix). -/
inductive AcgExt where
  | GEN        -- ".gen.py"   renewable generator
  | GEN_ONCE   -- ".gen1.py"  once-only generator
  | REN        -- ".rename"   file to rename
  | RENR       -- ".rename.py" renamer (new-name producer)
  | REN_ONCE   -- ".ren1"     file to rename (once only)
  | RENR_ONCE  -- ".ren1.py"  renamer (once only)
  | FRA        -- ".fra.py"   fragment
  deriving DecidableEq, Repr

/-- The string value each `AcgExt` member carries in the source. -/
def AcgExt.val : AcgExt → String
  | .GEN => ".gen.py"
  | .GEN_ONCE => ".gen1.py"
  | .REN => ".rename"
  | .RENR => ".rename.py"
  | .REN_ONCE => ".ren1"
  | .RENR_ONCE => ".ren1.py"
  | .FRA => ".fra.py"

/-- All pipeline suffixes, in declaration order. -/
def acgExts : List String :=
  [AcgExt.GEN.val, AcgExt.GEN_ONCE.val, AcgExt.REN.val, AcgExt.RENR.val,
   AcgExt.REN_ONCE.val, AcgExt.RENR_ONCE.val, AcgExt.FRA.val]

/-- `TEMPLATE_MAKO_EXT` from `_internal/expand.py` line 24. -/
def TEMPLATE_MAKO_EXT : String := ".mako"

/-- The flat template-configuration shape whose attribute names
`_internal/expand.py` dereferences directly (`target_dir`, `init`,
`self_defence` at lines 279-280, 387, 420, 454).  Caution: the class
the configuration loader actually builds (`_internal/config.py` lines
49-55, embedded as `Cfg.ProjectConfigTemplate`) declares only
`project_name` and `bootstrap` and nests these three under
`bootstrap`, so at runtime those direct reads raise `AttributeError`;
this structure exists to state what `expand.py`'s body would do under
the shape it presupposes. -/
structure ProjectConfigTemplate where
  target_dir : AcgPath
  init : Bool
  self_defence : Bool
  deriving DecidableEq, Repr

/-- The `autocodegen` section of a project configuration
(`_internal/config.py` lines 16-24). -/
structure ProjectConfigAutocodegen where
  project_name : String
  project_root : AcgPath
  templates_root : AcgPath
  deriving DecidableEq, Repr

/-- A project configuration over the flat template shape; the
`templates` dict is modelled as an association list. -/
structure ProjectConfig where
  autocodegen : ProjectConfigAutocodegen
  templates : List (String × ProjectConfigTemplate)
  deriving DecidableEq, Repr

/-- `is_file_in_directory` (`_internal/expand.py` lines 249-254):
Python's `Path.is_relative_to`, i.e. the directory's components are a
prefix of the file's (the `except ValueError` branch returning False
cannot arise in the component model). -/
def is_file_in_directory (file_path dir_path : AcgPath) : Bool :=
  dir_path.isPrefixOf file_path

/-- The message of Python's `AttributeError` on a pydantic model. -/
def attributeError (cls attr : String) : String :=
  "AttributeError: '" ++ cls ++ "' object has no attribute '" ++
    attr ++ "'"

namespace Cfg

/-- `ProjectConfigTemplateBootstrap` (`_internal/config.py` lines
35-46): the per-template generation flags as the loader actually
stores them. -/
structure ProjectConfigTemplateBootstrap where
  target_dir : AcgPath
  init : Bool
  self_defence : Bool
  deriving DecidableEq, Repr

/-- `ProjectConfigTemplate` as `_internal/config.py` lines 49-55
really declares it: only `project_name` and `bootstrap`.  The flags
`expand.py` dereferences directly live under `bootstrap`. -/
structure ProjectConfigTemplate where
  project_name : String
  bootstrap : ProjectConfigTemplateBootstrap
  deriving DecidableEq, Repr

/-- A project configuration over the loader's template schema
(`_internal/config.py` lines 61-64). -/
structure ProjectConfig where
  autocodegen : ProjectConfigAutocodegen
  templates : List (String × ProjectConfigTemplate)
  deriving DecidableEq, Repr

/-- An attribute value of a `Cfg.ProjectConfigTemplate` instance. -/
inductive TemplateAttr where
  | project_name (s : String)
  | bootstrap (b : ProjectConfigTemplateBootstrap)
  deriving DecidableEq, Repr

/-- Python attribute access on a `Cfg.ProjectConfigTemplate`
instance: pydantic (with `extra="forbid"`) exposes exactly the
declared fields `project_name` and `bootstrap`; any other name
raises `AttributeError`. -/
def ProjectConfigTemplate.getattr (t : ProjectConfigTemplate)
    (name : String) : Except String TemplateAttr :=
  if name = "project_name" then .ok (.project_name t.project_name)
  else if name = "bootstrap" then .ok (.bootstrap t.bootstrap)
  else .error (attributeError "ProjectConfigTemplate" name)

/-- `is_project_self_defence` (`_internal/expand.py` lines 257-284)
run against the configuration objects the loader really builds: the
`for`-loop with early `return` is `List.find?`, and the returned
expression `template_config.self_defence` (line 280) is an attribute
access on a `Cfg.ProjectConfigTemplate`, which raises.  `Except`
carries the propagating exception. -/
def is_project_self_defence (project_config : ProjectConfig)
    (target_path : AcgPath) : Except String Bool :=
  if target_path = project_config.autocodegen.templates_root then
    .ok false
  else if is_file_in_directory target_path
      project_config.autocodegen.templates_root then
    match project_config.templates.find?
        (fun t => is_file_in_directory target_path
          (project_config.autocodegen.templates_root ++ [t.1])) with
    | some t =>
      match t.2.getattr "self_defence" with
      | .error e => .error e
      | .ok _ => .ok true  -- unreachable: the field is not declared
    | none => .ok true
  else
    .ok false

/-- `is_workspace_self_defence` (`_internal/expand.py` lines 287-292)
against the loader's schema: the loop returns True on the first
protected project, and an exception from the per-project test
propagates out of the loop. -/
def is_workspace_self_defence :
    List ProjectConfig → AcgPath → Except String Bool
  | [], _ => .ok false
  | c :: rest, p =>
    match is_project_self_defence c p with
    | .error e => .error e
    | .ok true => .ok true
    | .ok false => is_workspace_self_defence rest p

end Cfg

/-- A directory tree: the files directly inside it and its named
subdirectories.  Models the filesystem region `os.walk` traverses. -/
inductive FsTree where
  | node (files : List String) (dirs : List (String × FsTree))
  deriving Repr

/-- One `os.walk` frame: `(root, dir_names, file_names)`. -/
abbrev WalkFrame := AcgPath × List String × List String

mutual

/-- `os.walk(root)` (top-down, the default): the frame for the root
followed by the frames of each subdirectory in order. -/
def walk (root : AcgPath) : FsTree → List WalkFrame
  | .node files dirs =>
    (root, dirs.map Prod.fst, files) :: walkDirs root dirs

/-- Frames contributed by a list of named subdirectories. -/
def walkDirs (root : AcgPath) : List (String × FsTree) → List WalkFrame
  | [] => []
  | (n, sub) :: rest => walk (root ++ [n]) sub ++ walkDirs root rest

end

/-- `get_paths_by_ext` (`_internal/expand.py` lines 147-170).  The
source does `names = file_names; if with_dirs: names += dir_names`,
and `+=` extends `file_names` in place through the alias, so the
comprehension over `file_names` sees the directory names appended
exactly when `with_dirs` is set; `is_relative_to` is the component
prefix test. -/
def get_paths_by_ext (target_root : AcgPath) (ext : String)
    (with_dirs : Bool) (templates_root : AcgPath) (t : FsTree) :
    List AcgPath :=
  (walk target_root t).flatMap (fun fr =>
    let file_names :=
      if with_dirs then fr.2.2 ++ fr.2.1 else fr.2.2
    (file_names.filter (fun n =>
        strEndsWith n ext &&
          !(templates_root.isPrefixOf (fr.1 ++ [n])))).map
      (fun n => fr.1 ++ [n]))

/-- The mutable view of the target tree: the set of files present,
as a list of paths. -/
abbrev Disk := List AcgPath

/-- Strip a marker/extension from the final path component, as Python
string stripping on `str(path)` does for paths whose final component
carries the suffix. -/
def stripLastSuffix (p : AcgPath) (ext : String) : AcgPath :=
  p.dropLast ++ [strRemoveSuffix (p.getLastD "") ext]

/-- The first `for` loop of `expand_mako_all` (lines 214-222): process
each discovered template in order.  `stepOk p` tells whether
processing `p` (the `expand_mako` render plus `copystat`) raises; a
successful step writes the output file (the path with `.mako`
stripped), a raising step propagates immediately, ending the sweep
with the disk as it stands.  The write-failure branch inside
`expand_mako` is caught there (lines 199-200) and so counts as a
non-raising step. -/
def expandLoop (stepOk : AcgPath → Bool) :
    List AcgPath → Disk → Disk × Option AcgPath
  | [], d => (d, none)
  | p :: rest, d =>
    if stepOk p then
      expandLoop stepOk rest (stripLastSuffix p TEMPLATE_MAKO_EXT :: d)
    else
      (d, some p)

/-- The second `for` loop of `expand_mako_all` (lines 224-225): unlink
every discovered template source file. -/
def unlinkLoop : List AcgPath → Disk → Disk
  | [], d => d
  | p :: rest, d => unlinkLoop rest (d.filter (fun q => q ≠ p))

/-- `expand_mako_all` (`_internal/expand.py` lines 203-225): discover
the `.mako` files via `get_paths_by_ext`, render each in order, and
only after the whole render loop completes delete the sources.  The
second component reports the raising template, `none` on success. -/
def expand_mako_all (stepOk : AcgPath → Bool) (target_root : AcgPath)
    (templates_root : AcgPath) (t : FsTree) (d : Disk) :
    Disk × Option AcgPath :=
  let in_template_files :=
    get_paths_by_ext target_root TEMPLATE_MAKO_EXT false templates_root t
  match expandLoop stepOk in_template_files d with
  | (d1, some p) => (d1, some p)
  | (d1, none) => (unlinkLoop in_template_files d1, none)

/-- Abstract renamer-script environment: `is_file` tells whether a
renamer-script path exists on disk, `rename` gives the string its
`rename(ctx)` callable returns. -/
structure RenamerEnv where
  is_file : String → Bool
  rename : String → String

/-- `renamer_path.parent / new_name` on path strings: replace the
final `/`-separated component with `new_name`. -/
def parentJoin (p new_name : String) : String :=
  String.intercalate "/" ((p.splitOn "/").dropLast ++ [new_name])

/-- `get_rename_destination_path` (`_internal/expand.py` lines
118-144), over path strings as the source manipulates them.  Note the
source always strips `len(AcgExt.REN)` characters (the length of
".rename") and always probes for a `<dest>.rename.py` renamer,
whatever rename kind the surrounding sweep is processing.  The second
component lists the renamer files unlinked during resolution. -/
def get_rename_destination_path (env : RenamerEnv)
    (orig_path_str : String) (delete_renamer : Bool) :
    String × List String :=
  let dest_path_str := strDropRight orig_path_str AcgExt.REN.val.length
  let renamer_path := dest_path_str ++ AcgExt.RENR.val
  if env.is_file renamer_path then
    let new_name := env.rename renamer_path
    let renamed_path := parentJoin renamer_path new_name
    (renamed_path, if delete_renamer then [renamer_path] else [])
  else
    (dest_path_str, [])

/-- The `renamer_path` local computed at line 126 of
`get_rename_destination_path`: which sibling renamer script the code
probes for. -/
def probed_renamer_path (orig_path_str : String) : String :=
  strDropRight orig_path_str AcgExt.REN.val.length ++ AcgExt.RENR.val

/-- Modelled from the spec's words for comparison: rename-destination
resolution "strips exactly that marker" of the kind being swept to
obtain the holder path, and probes for `<holder><marker>.py`. -/
def spec_rename_holder (marker p : String) : String :=
  strDropRight p marker.length

/-- Modelled from the spec's words for comparison: the sibling
renamer-script path `<holder><marker>.py` for the swept kind. -/
def spec_renamer_path (marker p : String) : String :=
  spec_rename_holder marker p ++ marker ++ ".py"

/-- A loaded Python function: only its parameter count matters to the
interface check (`generate_func.__code__.co_argcount`). -/
structure PyFunc where
  argcount : Nat
  deriving DecidableEq, Repr

/-- A loaded generator module as `import_generate_func` inspects it:
`generate_fn` is `getattr(mod, "generate", None)` filtered through
`isfunction` — `none` when the attribute is missing or is not a
function. -/
structure PyModule where
  generate_fn : Option PyFunc
  deriving DecidableEq, Repr

/-- Errors raised by the generator pass. -/
inductive PyErr where
  | invalidGenerator (msg : String)
  | generateRaised (note : String)
  | writeFailed (note : String)
  deriving DecidableEq, Repr

/-- Message of the missing-`generate` branch (lines 103-105). -/
def noGenerateMsg (gen_mod_path : String) : String :=
  "Module '" ++ gen_mod_path ++ "' does not define a 'generate' function."

/-- Message of the wrong-arity branch (lines 107-113). -/
def wrongArityMsg (gen_mod_path : String) (argcount : Nat) : String :=
  "The 'generate' function in '" ++ gen_mod_path ++
    "' must take exactly one parameter (ctx) but it has " ++
    toString argcount ++ "."

/-- `import_generate_func` (`_internal/expand.py` lines 99-115): fetch
the module's `generate`, require it to be a function of exactly one
parameter, raising `InvalidGeneratorError` otherwise. -/
def import_generate_func (gen_mod_path : String) (gen_mod : PyModule) :
    Except PyErr PyFunc :=
  match gen_mod.generate_fn with
  | none => .error (.invalidGenerator (noGenerateMsg gen_mod_path))
  | some f =>
    if f.argcount ≠ 1 then
      .error (.invalidGenerator (wrongArityMsg gen_mod_path f.argcount))
    else
      .ok f

/-- Observable effects of `expand_gen` after the interface check. -/
inductive GenEffect where
  | invoke
  | write (target : AcgPath)
  deriving DecidableEq, Repr

/-- `expand_gen` (`_internal/expand.py` lines 228-246): import the
generate function, invoke it with the context, write the result.  The
first component records the effects performed before control left the
function; the second the propagated exception, if any.  `invokeResult`
abstracts `generate(ctx)`, `writeOk` whether the target write
raises. -/
def expand_gen (gen_mod_path : String) (gen_mod : PyModule)
    (target : AcgPath) (invokeResult : Except String String)
    (writeOk : Bool) : List GenEffect × Option PyErr :=
  match import_generate_func gen_mod_path gen_mod with
  | .error e => ([], some e)
  | .ok _ =>
    match invokeResult with
    | .error _ =>
      ([.invoke], some (.generateRaised
        ("Failed executing generate(ctx) from " ++ gen_mod_path)))
    | .ok _ =>
      if writeOk then
        ([.invoke, .write target], none)
      else
        ([.invoke], some (.writeFailed
          ("Failed writing to target file")))

/-- One step of the per-template `generate` pipeline
(`_internal/expand.py` lines 376-481). -/
inductive GenStep where
  | copyBootstrap (src dst : AcgPath)
  | expandMakoAll
  | expandGenAll (ext : String)
  | processRenames (ext : String)
  | wipePycacheAsync
  deriving DecidableEq, Repr

/-- The sequence of pipeline steps the body of `generate` would
execute under the flat template-configuration shape its attribute
reads presuppose: everything guarded by `bootstrap_path.exists()`,
the init-only sweeps gated on `template_config.init` alone, the
renewable sweeps and the fire-and-forget cache wipe always run inside
the guard.  Against the configuration objects the loader really
builds, the body raises before the guard — see `Cfg.generate_run`. -/
def generate_steps (bootstrap_exists : Bool) (template_name : String)
    (template_config : ProjectConfigTemplate)
    (project_config : ProjectConfig) : List GenStep :=
  let templates_root := project_config.autocodegen.templates_root
  let template_path := templates_root ++ [template_name]
  let bootstrap_path := template_path ++ ["bootstrap"]
  let target_root :=
    project_config.autocodegen.project_root ++ template_config.target_dir
  if bootstrap_exists then
    [.copyBootstrap bootstrap_path target_root, .expandMakoAll] ++
    (if template_config.init then
      [.expandGenAll AcgExt.GEN_ONCE.val,
       .processRenames AcgExt.REN_ONCE.val]
    else []) ++
    [.expandGenAll AcgExt.GEN.val, .processRenames AcgExt.REN.val,
     .wipePycacheAsync]
  else []

/-- Outcome of calling the body of `generate`: either an exception
propagates, or the pipeline runs a list of steps. -/
inductive Cfg.GenOutcome where
  | raised (msg : String)
  | ran (steps : List GenStep)
  deriving Repr

/-- The body of `generate` (`_internal/expand.py` lines 376-481) run
against the configuration objects the loader really builds: lines
382-384 compute paths from `project_config.autocodegen`, then line
387 reads `template_config.target_dir` — an attribute access on a
`Cfg.ProjectConfigTemplate`, which raises — before
`bootstrap_path.exists()` (line 442) is ever consulted. -/
def Cfg.generate_run (bootstrap_exists : Bool) (template_name : String)
    (template_config : Cfg.ProjectConfigTemplate)
    (project_config : Cfg.ProjectConfig) : Cfg.GenOutcome :=
  let templates_root := project_config.autocodegen.templates_root
  let template_path := templates_root ++ [template_name]
  let _bootstrap_path := template_path ++ ["bootstrap"]
  match template_config.getattr "target_dir" with
  | .error e => .raised e
  | .ok _ =>  -- unreachable: the field is not declared
    .ran []

/-- The parameters `generate` declares (`_internal/expand.py` lines
376-381). -/
def generate_params : List String :=
  ["template_name", "template_config", "project_config",
   "workspace_configs"]

/-- The keyword arguments `run.py` lines 287-293 pass to `generate`
beyond the positional ones: the call supplies `init=init`. -/
def run_generate_call_keywords : List String := ["init"]

/-- `is_project_target_empty` (`run.py` lines 149-189): the project
root is empty, or every entry resolves into the allowed set (the
resolved templates root and resolved workspace members).  `resolve`
abstracts `Path.resolve(strict=True)`; `entries` is
`list(project_root.iterdir())`. -/
def is_project_target_empty (resolve : AcgPath → AcgPath)
    (entries : List AcgPath) (templates_root : AcgPath)
    (members : List AcgPath) : Bool :=
  if entries.isEmpty then
    true
  else
    let allowed := resolve templates_root :: members.map resolve
    entries.all (fun e => allowed.contains (resolve e))

/-- `is_all_project_roots_empty` from `run.py` lines 261-268: the
conjunction of `is_project_target_empty` over every workspace project,
each supplied as `(entries, templates_root, members)`. -/
def main_is_all_roots_empty (resolve : AcgPath → AcgPath)
    (projects : List (List AcgPath × AcgPath × List AcgPath)) : Bool :=
  projects.all (fun pr =>
    is_project_target_empty resolve pr.1 pr.2.1 pr.2.2)

/-- The `init` value `main` computes per template (`run.py` lines
281-285): `is_all_project_roots_empty or top_workspace_init or
config.bootstrap.init`. -/
def main_template_init (is_all_project_roots_empty top_workspace_init
    bootstrap_init : Bool) : Bool :=
  is_all_project_roots_empty || top_workspace_init || bootstrap_init

/-- Component-level renamer environment for the rename sweep:
`is_file` is `Path.is_file` on candidate renamer-script paths,
`rename` the name returned by the script's `rename(ctx)` callable. -/
structure RenamerEnvP where
  is_file : AcgPath → Bool
  rename : AcgPath → String

/-- Python `orig_path_str[:-n]` on a path whose final component has at
least `n` characters: strip `n` characters from the final
component. -/
def stripLastChars (p : AcgPath) (n : Nat) : AcgPath :=
  p.dropLast ++ [strDropRight (p.getLastD "") n]

/-- Component-level counterpart of `get_rename_destination_path`
(`_internal/expand.py` lines 118-144), as `process_renames` consumes
it: strip `len(AcgExt.REN)` characters from the path string (acting on
the final component), probe for the `<dest>.rename.py` sibling; when
present, take the renamer's answer as the new final component and
unlink the renamer (second component: the unlinked files), otherwise
the stripped path with nothing unlinked. -/
def rename_destination_path (env : RenamerEnvP) (orig : AcgPath)
    (delete_renamer : Bool) : AcgPath × List AcgPath :=
  let dest := stripLastChars orig AcgExt.REN.val.length
  let renamer := dest.dropLast ++ [dest.getLastD "" ++ AcgExt.RENR.val]
  if env.is_file renamer then
    ((renamer.dropLast ++ [env.rename renamer]),
      if delete_renamer then [renamer] else [])
  else
    (dest, [])

/-- The filesystem operations `process_renames` issues, in order.
`copyTreeMerge` stands for `shutil.copytree(..., symlinks=True,
dirs_exist_ok=True, ignore_dangling_symlinks=True)`: a copy that
preserves symbolic links, merges into a pre-existing destination and
ignores dangling symlinks. -/
inductive RenOp where
  | unlinkFile (p : AcgPath)
  | moveFile (src dst : AcgPath)
  | copyTreeMerge (src dst : AcgPath)
  | rmTree (p : AcgPath)
  deriving DecidableEq, Repr

/-- The first loop of `process_renames` (lines 345-361): resolve each
swept path in order (unlinking its renamer when one exists); move it
now when it is not a directory, otherwise defer it to
`dirs_to_move`. -/
def renameFilePass (env : RenamerEnvP) (is_dir : AcgPath → Bool) :
    List AcgPath → List RenOp × List (AcgPath × AcgPath)
  | [] => ([], [])
  | orig :: rest =>
    if is_dir orig then
      ((rename_destination_path env orig true).2.map .unlinkFile
         ++ (renameFilePass env is_dir rest).1,
       (orig, (rename_destination_path env orig true).1)
         :: (renameFilePass env is_dir rest).2)
    else
      ((rename_destination_path env orig true).2.map .unlinkFile
         ++ [.moveFile orig (rename_destination_path env orig true).1]
         ++ (renameFilePass env is_dir rest).1,
       (renameFilePass env is_dir rest).2)

/-- The second loop of `process_renames` (lines 364-373): each
deferred directory is copy-then-removed. -/
def renameDirPass : List (AcgPath × AcgPath) → List RenOp
  | [] => []
  | (src, dst) :: rest =>
    .copyTreeMerge src dst :: .rmTree src :: renameDirPass rest

/-- `process_renames` (`_internal/expand.py` lines 328-373) as the
operation trace it issues over the swept paths `orig_paths`
(discovered by `get_paths_by_ext` with `with_dirs=True`). -/
def process_renames_trace (env : RenamerEnvP)
    (is_dir : AcgPath → Bool) (orig_paths : List AcgPath) :
    List RenOp :=
  (renameFilePass env is_dir orig_paths).1
    ++ renameDirPass (renameFilePass env is_dir orig_paths).2

/-- Effect of one rename operation on the set of files present. -/
def applyRenOp (d : Disk) : RenOp → Disk
  | .unlinkFile p => d.filter (fun q => q ≠ p)
  | .moveFile src dst => dst :: d.filter (fun q => q ≠ src)
  | .copyTreeMerge src dst =>
      d ++ (d.filter (fun q => src.isPrefixOf q)).map
        (fun q => dst ++ q.drop src.length)
  | .rmTree src => d.filter (fun q => !src.isPrefixOf q)

/-- Run a rename-operation trace over a disk. -/
def runRenOps (ops : List RenOp) (d : Disk) : Disk :=
  ops.foldl applyRenOp d

/-- An immutable Python primitive stored in a configuration dict. -/
inductive PrimVal where
  | str (s : String)
  | path (p : AcgPath)
  | boolean (b : Bool)
  deriving DecidableEq, Repr

/-- Address of a heap-allocated Python dict object. -/
abbrev Addr := Nat

/-- A value held in a dict slot: an immutable primitive or a reference
to a (mutable) heap dict. -/
inductive PyVal where
  | prim (v : PrimVal)
  | ref (a : Addr)
  deriving DecidableEq, Repr

/-- A Python dict object: insertion-ordered key/value entries. -/
abbrev PyDict := List (String × PyVal)

/-- The object heap: dict objects by address (first match wins) and
the next fresh address. -/
structure Heap where
  objs : List (Addr × PyDict)
  next : Addr
  deriving Repr

/-- Read the dict object at an address. -/
def Heap.lookup (h : Heap) (a : Addr) : Option PyDict :=
  (h.objs.find? (fun o => o.1 = a)).map (fun o => o.2)

/-- Overwrite the dict object at an address (in-place mutation of a
Python dict). -/
def Heap.setObj (h : Heap) (a : Addr) (d : PyDict) : Heap :=
  ⟨(a, d) :: h.objs, h.next⟩

/-- Allocate a new dict object at a fresh address. -/
def Heap.alloc (h : Heap) (d : PyDict) : Heap × Addr :=
  (⟨(h.next, d) :: h.objs, h.next + 1⟩, h.next)

/-- `d[k]` / `d.get(k)`. -/
def dictGet (d : PyDict) (k : String) : Option PyVal :=
  (d.find? (fun kv => kv.1 = k)).map (fun kv => kv.2)

/-- `d[k] = v`: replace in place when the key exists (preserving
insertion order), append otherwise. -/
def dictSet (d : PyDict) (k : String) (v : PyVal) : PyDict :=
  if d.any (fun kv => kv.1 = k) then
    d.map (fun kv => if kv.1 = k then (k, v) else kv)
  else
    d ++ [(k, v)]

/-- `d.pop(k, ...)`: remove the key. -/
def dictPop (d : PyDict) (k : String) : PyDict :=
  d.filter (fun kv => kv.1 ≠ k)

/-- A tree-shaped (acyclic) configuration value: the mathematical
reading of a heap-allocated dict, used to state what `load`'s input
looks like before and after the call. -/
inductive TomlVal where
  | prim (v : PrimVal)
  | table (entries : List (String × TomlVal))

mutual

/-- Read the tree value denoted by a dict slot, following references,
with a fuel bound on the reference depth. -/
def readVal : Nat → Heap → PyVal → Option TomlVal
  | _, _, .prim v => some (.prim v)
  | 0, _, .ref _ => none
  | fuel + 1, h, .ref a =>
    match h.lookup a with
    | none => none
    | some d =>
      match readEntries fuel h d with
      | none => none
      | some es => some (.table es)
  termination_by fuel _ _ => (fuel, 0)

/-- Read the tree values of a dict's entries. -/
def readEntries : Nat → Heap → PyDict → Option (List (String × TomlVal))
  | _, _, [] => some []
  | fuel, h, (k, v) :: rest =>
    match readVal fuel h v, readEntries fuel h rest with
    | some tv, some trest => some ((k, tv) :: trest)
    | _, _ => none
  termination_by fuel _ d => (fuel, d.length + 1)

end

mutual

/-- `copy.deepcopy` on a dict slot: primitives are shared (immutable),
references are copied recursively into fresh allocations.  The fuel
bounds the recursion depth; any fuel at least the input's nesting
depth reproduces Python's behaviour on the acyclic dicts `tomllib`
produces. -/
def deepcopyVal : Nat → Heap → PyVal → Heap × PyVal
  | _, h, .prim v => (h, .prim v)
  | 0, h, .ref _ => (h, .prim (.str ""))
  | fuel + 1, h, .ref a =>
    let d := (h.lookup a).getD []
    let hd := deepcopyEntries fuel h d
    let ha := hd.1.alloc hd.2
    (ha.1, .ref ha.2)
  termination_by fuel _ _ => (fuel, 0)

/-- Deep-copy each entry of a dict in order. -/
def deepcopyEntries : Nat → Heap → PyDict → Heap × PyDict
  | _, h, [] => (h, [])
  | fuel, h, (k, v) :: rest =>
    let hv := deepcopyVal fuel h v
    let hrest := deepcopyEntries fuel hv.1 rest
    (hrest.1, (k, hv.2) :: hrest.2)
  termination_by fuel _ d => (fuel, d.length + 1)

end

/-- `copy.deepcopy(data)` where `data` is a dict object: copy its
entries, allocate the copy fresh. -/
def deepcopyAddr (fuel : Nat) (h : Heap) (a : Addr) : Heap × Addr :=
  let d := (h.lookup a).getD []
  let hd := deepcopyEntries fuel h d
  hd.1.alloc hd.2

/-- `pathlib.Path.stem` of a path's final component: the name without
its last dot-suffix (a dot only counts when strictly inside the
name). -/
def pathStem (p : AcgPath) : String :=
  let nm := (p.getLastD "").data
  let dots := (List.range nm.length).filter
    (fun i => nm.get? i = some '.')
  match dots.getLast? with
  | some i => if 0 < i ∧ i < nm.length - 1 then ⟨nm.take i⟩ else ⟨nm⟩
  | none => ⟨nm⟩

/-- Allocate `{"bootstrap": {"target_dir": "."}}` for each
directory-derived template name, in order (the
`templates_from_dirs` comprehension, lines 126-130). -/
def allocTemplates (h : Heap) : List String → Heap × List (String × PyVal)
  | [] => (h, [])
  | n :: rest =>
    let hi := h.alloc [("target_dir", .prim (.str "."))]
    let ho := hi.1.alloc [("bootstrap", .ref hi.2)]
    let hrest := allocTemplates ho.1 rest
    (hrest.1, (n, .ref ho.2) :: hrest.2)

/-- The defaulting loop over templates (lines 136-139): give each
template dict a `project_name` when it lacks one.  A non-dict template
value would crash the source on assignment; the model skips it (the
branch is unreachable for well-typed input). -/
def setTemplateNames (pn : PyVal) : Heap → List (String × PyVal) → Heap
  | h, [] => h
  | h, (_, .prim _) :: rest => setTemplateNames pn h rest
  | h, (_, .ref a) :: rest =>
    let d := (h.lookup a).getD []
    let h2 :=
      if (dictGet d "project_name").isSome then h
      else h.setObj a (dictSet d "project_name" pn)
    setTemplateNames pn h2 rest

/-- `data_processed.pop("autocodegen", {})` (line 77): remove the key
from the deep-copied root dict and hand back the popped section (a
fresh empty dict when absent; the non-dict case is unreachable for
well-typed input and allocates fresh so the embedding stays total). -/
def loadPopAutocodegen (h : Heap) (dp : Addr) : Heap × Addr :=
  let dpd := (h.lookup dp).getD []
  match dictGet dpd "autocodegen" with
  | some (.ref a) => (h.setObj dp (dictPop dpd "autocodegen"), a)
  | some (.prim _) => (h.setObj dp (dictPop dpd "autocodegen")).alloc []
  | none => h.alloc []

/-- Lines 80-119: force `templates_root` and `project_root` on the
`autocodegen` section (the configured values are ignored with a
warning) and default `project_name` from the parameter or the project
root's stem. -/
def loadDefaultAutocodegen (h : Heap) (acg : Addr)
    (templates_root : AcgPath) (project_name_default : Option String) :
    Heap :=
  let h3 := h.setObj acg
    (dictSet ((h.lookup acg).getD []) "templates_root"
      (.prim (.path templates_root)))
  let h4 := h3.setObj acg
    (dictSet ((h3.lookup acg).getD []) "project_root"
      (.prim (.path templates_root.dropLast)))
  let acgd := (h4.lookup acg).getD []
  if (dictGet acgd "project_name").isSome then h4
  else
    let pn :=
      match project_name_default with
      | some s => s
      | none =>
        match dictGet acgd "project_root" with
        | some (.prim (.path pr)) => pathStem pr
        | _ => ""  -- unreachable: just assigned above
    h4.setObj acg (dictSet acgd "project_name" (.prim (.str pn)))

/-- Line 121: `data_processed["autocodegen"] = autocodegen`. -/
def loadAttachAutocodegen (h : Heap) (dp acg : Addr) : Heap :=
  h.setObj dp
    (dictSet ((h.lookup dp).getD []) "autocodegen" (.ref acg))

/-- Lines 123-124: ensure `data_processed["templates"]` exists,
handing back the templates table's address. -/
def loadEnsureTemplates (h : Heap) (dp : Addr) : Heap × Addr :=
  let dpd := (h.lookup dp).getD []
  match dictGet dpd "templates" with
  | some (.ref a) => (h, a)
  | some (.prim _) => h.alloc []  -- unreachable for well-typed input
  | none =>
    let ha := h.alloc []
    (ha.1.setObj dp
      (dictSet ((ha.1.lookup dp).getD []) "templates" (.ref ha.2)),
     ha.2)

/-- Lines 126-134: build `templates_from_dirs` from the subdirectory
names not already configured and `update` the templates table with
them. -/
def loadMergeDirTemplates (h : Heap) (tmpl : Addr)
    (dir_names : List String) : Heap :=
  let tmpld := (h.lookup tmpl).getD []
  let newNames := dir_names.filter (fun n => (dictGet tmpld n).isNone)
  let hnew := allocTemplates h newNames
  hnew.1.setObj tmpl
    (hnew.2.foldl (fun d kv => dictSet d kv.1 kv.2)
      ((hnew.1.lookup tmpl).getD []))

/-- Lines 136-139: default each template's `project_name` from the
`autocodegen` section, via the root dict as the source reads it. -/
def loadDefaultTemplateNames (h : Heap) (dp tmpl : Addr) : Heap :=
  let pnVal :=
    match dictGet ((h.lookup dp).getD []) "autocodegen" with
    | some (.ref a) =>
      (dictGet ((h.lookup a).getD []) "project_name").getD
        (.prim (.str ""))
    | _ => .prim (.str "")  -- unreachable: assigned by loadAttach
  setTemplateNames pnVal h ((h.lookup tmpl).getD [])

/-- `ProjectConfig.load` (`_internal/config.py` lines 66-142) over the
object heap: deep-copy the raw `data` dict, then run every defaulting
and merging step on the copy (`dir_names` models
`sorted(templates_root.iterdir())` filtered to directories).  Returns
the final heap and the deep-copied root; `model_validate` (line 142)
is a pure read.  The fuel bounds the deep-copy depth; any value at
least the input's nesting depth reproduces Python's behaviour. -/
def ProjectConfig.load (fuel : Nat) (h0 : Heap) (data : Addr)
    (templates_root : AcgPath) (project_name_default : Option String)
    (dir_names : List String) : Heap × Addr :=
  let hdp := deepcopyAddr fuel h0 data
  let hacg := loadPopAutocodegen hdp.1 hdp.2
  let h5 := loadDefaultAutocodegen hacg.1 hacg.2 templates_root
    project_name_default
  let h6 := loadAttachAutocodegen h5 hdp.2 hacg.2
  let htm := loadEnsureTemplates h6 hdp.2
  let h9 := loadMergeDirTemplates htm.1 htm.2 dir_names
  let h10 := loadDefaultTemplateNames h9 hdp.2 htm.2
  (h10, hdp.2)

/-- `h'` agrees with `h` on every address below `n`. -/
def Heap.AgreesBelow (n : Addr) (h h' : Heap) : Prop :=
  ∀ a, a < n → h'.lookup a = h.lookup a

/-- Every reference held by the value points at or above `n`. -/
def ValGE (n : Addr) (v : PyVal) : Prop :=
  ∀ a, v = .ref a → n ≤ a

/-- Every reference held in the dict points at or above `n`. -/
def DictGE (n : Addr) (d : PyDict) : Prop :=
  ∀ kv ∈ d, ValGE n kv.2

/-- Every dict stored at or above `n` only references at or above `n`
(the fresh region is closed). -/
def HeapGE (n : Addr) (h : Heap) : Prop :=
  ∀ a, n ≤ a → ∀ d, h.lookup a = some d → DictGE n d

/-- Every reference held by the value points below `n`. -/
def ValLT (n : Addr) (v : PyVal) : Prop :=
  ∀ a, v = .ref a → a < n

/-- Every reference stored anywhere in the heap points below `n`. -/
def HeapLT (n : Addr) (h : Heap) : Prop :=
  ∀ a d, h.lookup a = some d → ∀ kv ∈ d, ValLT n kv.2

/-- A well-formed heap: all objects live below `next` and reference
only addresses below `next`. -/
def Heap.WF (h : Heap) : Prop :=
  (∀ o ∈ h.objs, o.1 < h.next) ∧
  (∀ o ∈ h.objs, ∀ kv ∈ o.2, ∀ a, kv.2 = PyVal.ref a → a < h.next)

end Acg

namespace Acg

/-- No pipeline suffix is a (string) suffix of a different pipeline
suffix: the suffix set is pairwise incomparable. -/
theorem acgExts_pairwise_incomparable :
    ∀ e1 ∈ acgExts, ∀ e2 ∈ acgExts, e1.data <:+ e2.data → e1 = e2 := by
  decide

/-- Two equally-long prefixes of the same list are equal. -/
theorem prefix_same_length_eq {α : Type} {l1 l2 l3 : List α}
    (h1 : l1 <+: l3) (h2 : l2 <+: l3) (hlen : l1.length = l2.length) :
    l1 = l2 := by
  rcases List.prefix_or_prefix_of_prefix h1 h2 with h | h
  · exact h.eq_of_length hlen
  · exact (h.eq_of_length hlen.symm).symm

mutual

/-- Every frame yielded by `walk root t` has `root` as a prefix of its
root path. -/
theorem walk_frames_under_root (root : AcgPath) (t : FsTree) :
    ∀ fr ∈ walk root t, root <+: fr.1 := by
  match t with
  | .node files dirs =>
    intro fr hfr
    rw [walk] at hfr
    rcases List.mem_cons.mp hfr with rfl | h
    · exact List.prefix_refl _
    · exact walkDirs_frames_under_root root dirs fr h

/-- Every frame yielded by `walkDirs root dirs` has `root` as a prefix
of its root path. -/
theorem walkDirs_frames_under_root (root : AcgPath)
    (dirs : List (String × FsTree)) :
    ∀ fr ∈ walkDirs root dirs, root <+: fr.1 := by
  match dirs with
  | [] => intro fr hfr; cases hfr
  | (n, sub) :: rest =>
    intro fr hfr
    rw [walkDirs] at hfr
    rcases List.mem_append.mp hfr with h | h
    · exact (List.prefix_append root [n]).trans
        (walk_frames_under_root (root ++ [n]) sub fr h)
    · exact walkDirs_frames_under_root root rest fr h

end

/-- The render loop never removes a file: it only writes outputs. -/
theorem expandLoop_monotone (stepOk : AcgPath → Bool)
    (files : List AcgPath) (d : Disk) (q : AcgPath) (hq : q ∈ d) :
    q ∈ (expandLoop stepOk files d).1 := by
  induction files generalizing d with
  | nil => exact hq
  | cons p rest ih =>
    rw [expandLoop]
    by_cases h : stepOk p
    · rw [if_pos h]
      exact ih _ (List.mem_cons_of_mem _ hq)
    · rw [if_neg h]
      exact hq

/-- Every operation the first loop emits is a file move or a renamer
unlink — never a directory copy or removal. -/
theorem renameFilePass_file_ops (env : RenamerEnvP)
    (is_dir : AcgPath → Bool) (ps : List AcgPath) :
    ∀ op ∈ (renameFilePass env is_dir ps).1,
      (∃ s t, op = RenOp.moveFile s t) ∨ (∃ p, op = RenOp.unlinkFile p) := by
  induction ps with
  | nil =>
    intro op hop
    simp [renameFilePass] at hop
  | cons orig rest ih =>
    intro op hop
    rw [renameFilePass] at hop
    by_cases hdir : is_dir orig
    · rw [if_pos hdir] at hop
      rcases List.mem_append.mp hop with h | h
      · obtain ⟨p, _, rfl⟩ := List.mem_map.mp h
        exact Or.inr ⟨p, rfl⟩
      · exact ih op h
    · rw [if_neg hdir] at hop
      rcases List.mem_append.mp hop with h | h
      · rcases List.mem_append.mp h with h' | h'
        · obtain ⟨p, _, rfl⟩ := List.mem_map.mp h'
          exact Or.inr ⟨p, rfl⟩
        · rcases List.mem_singleton.mp h' with rfl
          exact Or.inl ⟨orig, _, rfl⟩
      · exact ih op h

/-- The second loop is exactly a copy-then-remove pair per deferred
directory. -/
theorem renameDirPass_eq_flatMap (dirs : List (AcgPath × AcgPath)) :
    renameDirPass dirs = dirs.flatMap
      (fun sd => [RenOp.copyTreeMerge sd.1 sd.2, RenOp.rmTree sd.1]) := by
  induction dirs with
  | nil => rfl
  | cons hd tl ih =>
    rcases hd with ⟨s, d⟩
    rw [renameDirPass, ih]
    rfl

/-- Stripping a positive number of available characters changes the
string. -/
theorem strDropRight_ne (s : String) (n : Nat) (h0 : 0 < n)
    (hlen : n ≤ s.data.length) : strDropRight s n ≠ s := by
  intro h
  have hdata : (strDropRight s n).data = s.data := congrArg String.data h
  rw [strDropRight] at hdata
  have hl := congrArg List.length hdata
  rw [List.length_take] at hl
  have : min (s.data.length - n) s.data.length = s.data.length - n :=
    Nat.min_eq_left (Nat.sub_le _ _)
  omega

/-- A string ending in a suffix is at least as long as the suffix. -/
theorem strEndsWith_length_le (s suffix : String)
    (h : strEndsWith s suffix = true) :
    suffix.data.length ≤ s.data.length := by
  rw [strEndsWith, List.isSuffixOf_iff_suffix] at h
  exact h.length_le

theorem Heap.lookup_setObj (h : Heap) (a : Addr) (d : PyDict)
    (b : Addr) :
    (h.setObj a d).lookup b = if b = a then some d else h.lookup b := by
  by_cases hb : b = a
  · subst hb
    simp [Heap.lookup, Heap.setObj, List.find?_cons_of_pos]
  · rw [if_neg hb]
    rw [Heap.lookup, Heap.setObj]
    simp only []
    rw [List.find?_cons_of_neg]
    · rfl
    · simp [Ne.symm hb]

theorem Heap.lookup_alloc (h : Heap) (d : PyDict) (b : Addr) :
    (h.alloc d).1.lookup b
      = if b = h.next then some d else h.lookup b := by
  by_cases hb : b = h.next
  · subst hb
    simp [Heap.lookup, Heap.alloc, List.find?_cons_of_pos]
  · rw [if_neg hb]
    rw [Heap.lookup, Heap.alloc]
    simp only []
    rw [List.find?_cons_of_neg]
    · rfl
    · simp
      exact fun h' => absurd h'.symm hb

theorem agreesBelow_refl (n : Addr) (h : Heap) :
    Heap.AgreesBelow n h h :=
  fun _ _ => rfl

theorem agreesBelow_trans {n : Addr} {h1 h2 h3 : Heap}
    (h12 : Heap.AgreesBelow n h1 h2) (h23 : Heap.AgreesBelow n h2 h3) :
    Heap.AgreesBelow n h1 h3 :=
  fun a ha => (h23 a ha).trans (h12 a ha)

theorem setObj_agreesBelow {n : Addr} (h : Heap) {a : Addr}
    (d : PyDict) (hn : n ≤ a) :
    Heap.AgreesBelow n h (h.setObj a d) := by
  intro b hb
  rw [Heap.lookup_setObj]
  have hne : b ≠ a := Nat.ne_of_lt (Nat.lt_of_lt_of_le hb hn)
  rw [if_neg hne]

theorem alloc_agreesBelow {n : Addr} (h : Heap) (d : PyDict)
    (hn : n ≤ h.next) :
    Heap.AgreesBelow n h (h.alloc d).1 := by
  intro b hb
  rw [Heap.lookup_alloc]
  have hne : b ≠ h.next := Nat.ne_of_lt (Nat.lt_of_lt_of_le hb hn)
  rw [if_neg hne]

theorem dictGet_GE {n : Addr} {d : PyDict} {k : String} {v : PyVal}
    (hd : DictGE n d) (hg : dictGet d k = some v) : ValGE n v := by
  rw [dictGet] at hg
  rcases Option.map_eq_some'.mp hg with ⟨kv, hfind, hv⟩
  subst hv
  exact hd kv (List.mem_of_find?_eq_some hfind)

theorem lookup_getD_GE {n : Addr} {h : Heap} {a : Addr}
    (hg : HeapGE n h) (ha : n ≤ a) :
    DictGE n ((h.lookup a).getD []) := by
  cases hl : h.lookup a with
  | none =>
    intro kv hkv
    simp at hkv
  | some d =>
    simpa using hg a ha d hl

theorem dictSet_GE {n : Addr} {d : PyDict} {k : String} {v : PyVal}
    (hd : DictGE n d) (hv : ValGE n v) : DictGE n (dictSet d k v) := by
  rw [dictSet]
  by_cases hk : d.any (fun kv => kv.1 = k)
  · rw [if_pos hk]
    intro kv hkv
    rcases List.mem_map.mp hkv with ⟨kv0, hkv0, heq⟩
    by_cases h0 : kv0.1 = k
    · rw [if_pos h0] at heq
      subst heq
      exact hv
    · rw [if_neg h0] at heq
      subst heq
      exact hd kv0 hkv0
  · rw [if_neg hk]
    intro kv hkv
    rcases List.mem_append.mp hkv with h' | h'
    · exact hd kv h'
    · rcases List.mem_singleton.mp h' with rfl
      exact hv

theorem dictPop_GE {n : Addr} {d : PyDict} {k : String}
    (hd : DictGE n d) : DictGE n (dictPop d k) := by
  intro kv hkv
  exact hd kv (List.mem_of_mem_filter hkv)

theorem foldlSet_GE {n : Addr} (es : List (String × PyVal))
    (d : PyDict) (hd : DictGE n d) (hes : ∀ kv ∈ es, ValGE n kv.2) :
    DictGE n (es.foldl (fun d kv => dictSet d kv.1 kv.2) d) := by
  induction es generalizing d with
  | nil => exact hd
  | cons hd0 tl ih =>
    rw [List.foldl_cons]
    refine ih _ (dictSet_GE hd (hes hd0 (List.mem_cons_self _ _))) ?_
    intro kv hkv
    exact hes kv (List.mem_cons_of_mem _ hkv)

theorem heapGE_setObj {n : Addr} {h : Heap} {a : Addr} {d : PyDict}
    (hg : HeapGE n h) (hd : DictGE n d) : HeapGE n (h.setObj a d) := by
  intro b hb d' hl
  rw [Heap.lookup_setObj] at hl
  by_cases hba : b = a
  · rw [if_pos hba] at hl
    cases hl
    exact hd
  · rw [if_neg hba] at hl
    exact hg b hb d' hl

theorem heapGE_alloc {n : Addr} {h : Heap} {d : PyDict}
    (hg : HeapGE n h) (hd : DictGE n d) : HeapGE n (h.alloc d).1 := by
  intro b hb d' hl
  rw [Heap.lookup_alloc] at hl
  by_cases hbn : b = h.next
  · rw [if_pos hbn] at hl
    cases hl
    exact hd
  · rw [if_neg hbn] at hl
    exact hg b hb d' hl

theorem valGE_prim {n : Addr} (v : PrimVal) : ValGE n (.prim v) := by
  intro a h
  cases h

theorem dictGE_nil {n : Addr} : DictGE n [] := by
  intro kv hkv
  cases hkv

mutual

/-- Deep-copying a value only allocates: the fresh region stays
closed, existing addresses are untouched, and the copy references
only fresh addresses. -/
theorem deepcopyVal_spec (fuel : Nat) (h : Heap) (v : PyVal)
    (n : Addr) (hn : n ≤ h.next) (hg : HeapGE n h) :
    n ≤ (deepcopyVal fuel h v).1.next ∧
    Heap.AgreesBelow n h (deepcopyVal fuel h v).1 ∧
    HeapGE n (deepcopyVal fuel h v).1 ∧
    ValGE n (deepcopyVal fuel h v).2 := by
  match fuel, v with
  | _, .prim pv =>
    simp only [deepcopyVal]
    exact ⟨hn, agreesBelow_refl _ _, hg, valGE_prim pv⟩
  | 0, .ref a =>
    simp only [deepcopyVal]
    exact ⟨hn, agreesBelow_refl _ _, hg, valGE_prim _⟩
  | fuel + 1, .ref a =>
    have hrec := deepcopyEntries_spec fuel h ((h.lookup a).getD []) n
      hn hg
    simp only [deepcopyVal]
    refine ⟨?_, ?_, ?_, ?_⟩
    · exact Nat.le_succ_of_le hrec.1
    · exact agreesBelow_trans hrec.2.1
        (alloc_agreesBelow _ _ hrec.1)
    · exact heapGE_alloc hrec.2.2.1 hrec.2.2.2
    · intro b heq
      cases heq
      exact hrec.1
  termination_by (fuel, 0)

/-- Deep-copying a dict's entries: same frame properties, and the
copied entries reference only fresh addresses. -/
theorem deepcopyEntries_spec (fuel : Nat) (h : Heap) (d : PyDict)
    (n : Addr) (hn : n ≤ h.next) (hg : HeapGE n h) :
    n ≤ (deepcopyEntries fuel h d).1.next ∧
    Heap.AgreesBelow n h (deepcopyEntries fuel h d).1 ∧
    HeapGE n (deepcopyEntries fuel h d).1 ∧
    DictGE n (deepcopyEntries fuel h d).2 := by
  match d with
  | [] =>
    simp only [deepcopyEntries]
    exact ⟨hn, agreesBelow_refl _ _, hg, dictGE_nil⟩
  | (k, v) :: rest =>
    have hv := deepcopyVal_spec fuel h v n hn hg
    have hrest := deepcopyEntries_spec fuel (deepcopyVal fuel h v).1
      rest n hv.1 hv.2.2.1
    simp only [deepcopyEntries]
    refine ⟨hrest.1, agreesBelow_trans hv.2.1 hrest.2.1,
      hrest.2.2.1, ?_⟩
    intro kv hkv
    rcases List.mem_cons.mp hkv with rfl | hkv'
    · exact hv.2.2.2
    · exact hrest.2.2.2 kv hkv'
  termination_by (fuel, d.length + 1)

end

/-- `deepcopyAddr` frame spec: fresh-region closure, untouched old
addresses, and a fresh result address. -/
theorem deepcopyAddr_spec (fuel : Nat) (h : Heap) (a : Addr)
    (n : Addr) (hn : n ≤ h.next) (hg : HeapGE n h) :
    n ≤ (deepcopyAddr fuel h a).1.next ∧
    Heap.AgreesBelow n h (deepcopyAddr fuel h a).1 ∧
    HeapGE n (deepcopyAddr fuel h a).1 ∧
    n ≤ (deepcopyAddr fuel h a).2 := by
  have hrec := deepcopyEntries_spec fuel h ((h.lookup a).getD []) n
    hn hg
  simp only [deepcopyAddr]
  refine ⟨Nat.le_succ_of_le hrec.1,
    agreesBelow_trans hrec.2.1 (alloc_agreesBelow _ _ hrec.1),
    heapGE_alloc hrec.2.2.1 hrec.2.2.2, hrec.1⟩

/-- `loadPopAutocodegen` frame spec: the popped section's address is
in the fresh region and old addresses are untouched. -/
theorem loadPopAutocodegen_spec (h : Heap) (dp : Addr) (n : Addr)
    (hn : n ≤ h.next) (hg : HeapGE n h) (hdp : n ≤ dp) :
    n ≤ (loadPopAutocodegen h dp).1.next ∧
    Heap.AgreesBelow n h (loadPopAutocodegen h dp).1 ∧
    HeapGE n (loadPopAutocodegen h dp).1 ∧
    n ≤ (loadPopAutocodegen h dp).2 := by
  have hdpd : DictGE n ((h.lookup dp).getD []) := lookup_getD_GE hg hdp
  rw [loadPopAutocodegen]
  rcases hget : dictGet ((h.lookup dp).getD []) "autocodegen" with
    _ | v
  · simp only []
    exact ⟨Nat.le_succ_of_le hn, alloc_agreesBelow _ _ hn,
      heapGE_alloc hg dictGE_nil, hn⟩
  · rcases v with pv | a
    · simp only []
      refine ⟨Nat.le_succ_of_le hn, ?_, ?_, hn⟩
      · exact agreesBelow_trans (setObj_agreesBelow h _ hdp)
          (alloc_agreesBelow _ _ hn)
      · exact heapGE_alloc (heapGE_setObj hg (dictPop_GE hdpd))
          dictGE_nil
    · simp only []
      refine ⟨hn, setObj_agreesBelow h _ hdp,
        heapGE_setObj hg (dictPop_GE hdpd), ?_⟩
      exact dictGet_GE hdpd hget a rfl

/-- `loadDefaultAutocodegen` frame spec. -/
theorem loadDefaultAutocodegen_spec (h : Heap) (acg : Addr)
    (troot : AcgPath) (pnd : Option String) (n : Addr)
    (hn : n ≤ h.next) (hg : HeapGE n h) (hacg : n ≤ acg) :
    n ≤ (loadDefaultAutocodegen h acg troot pnd).next ∧
    Heap.AgreesBelow n h (loadDefaultAutocodegen h acg troot pnd) ∧
    HeapGE n (loadDefaultAutocodegen h acg troot pnd) := by
  rw [loadDefaultAutocodegen.eq_def]
  simp only []
  set h3 := h.setObj acg
    (dictSet ((h.lookup acg).getD []) "templates_root"
      (.prim (.path troot))) with hh3
  have hg3 : HeapGE n h3 :=
    heapGE_setObj hg (dictSet_GE (lookup_getD_GE hg hacg)
      (valGE_prim _))
  have ha3 : Heap.AgreesBelow n h h3 := setObj_agreesBelow h _ hacg
  set h4 := h3.setObj acg
    (dictSet ((h3.lookup acg).getD []) "project_root"
      (.prim (.path troot.dropLast))) with hh4
  have hg4 : HeapGE n h4 :=
    heapGE_setObj hg3 (dictSet_GE (lookup_getD_GE hg3 hacg)
      (valGE_prim _))
  have ha4 : Heap.AgreesBelow n h h4 :=
    agreesBelow_trans ha3 (setObj_agreesBelow h3 _ hacg)
  by_cases hpn : (dictGet ((h4.lookup acg).getD []) "project_name").isSome
  · rw [if_pos hpn]
    exact ⟨hn, ha4, hg4⟩
  · rw [if_neg hpn]
    refine ⟨hn, agreesBelow_trans ha4 (setObj_agreesBelow h4 _ hacg), ?_⟩
    exact heapGE_setObj hg4 (dictSet_GE (lookup_getD_GE hg4 hacg)
      (valGE_prim _))

/-- `loadAttachAutocodegen` frame spec. -/
theorem loadAttachAutocodegen_spec (h : Heap) (dp acg : Addr)
    (n : Addr) (hn : n ≤ h.next) (hg : HeapGE n h) (hdp : n ≤ dp)
    (hacg : n ≤ acg) :
    n ≤ (loadAttachAutocodegen h dp acg).next ∧
    Heap.AgreesBelow n h (loadAttachAutocodegen h dp acg) ∧
    HeapGE n (loadAttachAutocodegen h dp acg) := by
  rw [loadAttachAutocodegen]
  refine ⟨hn, setObj_agreesBelow h _ hdp, ?_⟩
  refine heapGE_setObj hg (dictSet_GE (lookup_getD_GE hg hdp) ?_)
  intro b heq
  cases heq
  exact hacg

/-- `loadEnsureTemplates` frame spec: the templates table's address is
in the fresh region and old addresses are untouched. -/
theorem loadEnsureTemplates_spec (h : Heap) (dp : Addr) (n : Addr)
    (hn : n ≤ h.next) (hg : HeapGE n h) (hdp : n ≤ dp) :
    n ≤ (loadEnsureTemplates h dp).1.next ∧
    Heap.AgreesBelow n h (loadEnsureTemplates h dp).1 ∧
    HeapGE n (loadEnsureTemplates h dp).1 ∧
    n ≤ (loadEnsureTemplates h dp).2 := by
  have hdpd : DictGE n ((h.lookup dp).getD []) := lookup_getD_GE hg hdp
  rw [loadEnsureTemplates]
  rcases hget : dictGet ((h.lookup dp).getD []) "templates" with _ | v
  · simp only []
    have hga : HeapGE n (h.alloc []).1 := heapGE_alloc hg dictGE_nil
    have hna : n ≤ (h.alloc []).1.next := Nat.le_succ_of_le hn
    refine ⟨hna, ?_, ?_, hn⟩
    · exact agreesBelow_trans (alloc_agreesBelow _ _ hn)
        (setObj_agreesBelow _ _ hdp)
    · refine heapGE_setObj hga
        (dictSet_GE (lookup_getD_GE hga hdp) ?_)
      intro b heq
      cases heq
      exact hn
  · rcases v with pv | a
    · simp only []
      exact ⟨Nat.le_succ_of_le hn, alloc_agreesBelow _ _ hn,
        heapGE_alloc hg dictGE_nil, hn⟩
    · simp only []
      exact ⟨hn, agreesBelow_refl _ _, hg, dictGet_GE hdpd hget a rfl⟩

/-- `allocTemplates` frame spec: only allocates, and the produced
entries reference only fresh addresses. -/
theorem allocTemplates_spec (h : Heap) (names : List String)
    (n : Addr) (hn : n ≤ h.next) (hg : HeapGE n h) :
    n ≤ (allocTemplates h names).1.next ∧
    Heap.AgreesBelow n h (allocTemplates h names).1 ∧
    HeapGE n (allocTemplates h names).1 ∧
    ∀ kv ∈ (allocTemplates h names).2, ValGE n kv.2 := by
  induction names generalizing h with
  | nil =>
    simp only [allocTemplates]
    exact ⟨hn, agreesBelow_refl _ _, hg, fun kv hkv => by cases hkv⟩
  | cons nm rest ih =>
    simp only [allocTemplates]
    have hgi : HeapGE n (h.alloc [("target_dir", .prim (.str "."))]).1 :=
      heapGE_alloc hg (by
        intro kv hkv
        rcases List.mem_singleton.mp hkv with rfl
        exact valGE_prim _)
    have hni : n ≤ (h.alloc [("target_dir", .prim (.str "."))]).1.next :=
      Nat.le_succ_of_le hn
    have hgo : HeapGE n ((h.alloc
        [("target_dir", .prim (.str "."))]).1.alloc
        [("bootstrap", .ref (h.alloc
          [("target_dir", .prim (.str "."))]).2)]).1 := by
      refine heapGE_alloc hgi ?_
      intro kv hkv
      rcases List.mem_singleton.mp hkv with rfl
      intro b heq
      cases heq
      exact hn
    have hno : n ≤ ((h.alloc
        [("target_dir", .prim (.str "."))]).1.alloc
        [("bootstrap", .ref (h.alloc
          [("target_dir", .prim (.str "."))]).2)]).1.next :=
      Nat.le_succ_of_le hni
    have hrest := ih _ hno hgo
    refine ⟨hrest.1, ?_, hrest.2.2.1, ?_⟩
    · exact agreesBelow_trans (alloc_agreesBelow _ _ hn)
        (agreesBelow_trans (alloc_agreesBelow _ _ hni) hrest.2.1)
    · intro kv hkv
      rcases List.mem_cons.mp hkv with rfl | hkv'
      · intro b heq
        cases heq
        exact hni
      · exact hrest.2.2.2 kv hkv'

/-- `loadMergeDirTemplates` frame spec. -/
theorem loadMergeDirTemplates_spec (h : Heap) (tmpl : Addr)
    (dir_names : List String) (n : Addr) (hn : n ≤ h.next)
    (hg : HeapGE n h) (htm : n ≤ tmpl) :
    n ≤ (loadMergeDirTemplates h tmpl dir_names).next ∧
    Heap.AgreesBelow n h (loadMergeDirTemplates h tmpl dir_names) ∧
    HeapGE n (loadMergeDirTemplates h tmpl dir_names) := by
  rw [loadMergeDirTemplates]
  have hal := allocTemplates_spec h
    (dir_names.filter
      (fun nm => (dictGet ((h.lookup tmpl).getD []) nm).isNone)) n hn hg
  refine ⟨hal.1, ?_, ?_⟩
  · exact agreesBelow_trans hal.2.1 (setObj_agreesBelow _ _ htm)
  · refine heapGE_setObj hal.2.2.1 ?_
    exact foldlSet_GE _ _ (lookup_getD_GE hal.2.2.1 htm) hal.2.2.2

/-- `setTemplateNames` frame spec: writes land only on the addresses
the (fresh-referencing) entries point at. -/
theorem setTemplateNames_spec (pn : PyVal) (es : List (String × PyVal))
    (h : Heap) (n : Addr) (hn : n ≤ h.next) (hg : HeapGE n h)
    (hpn : ValGE n pn) (hes : ∀ kv ∈ es, ValGE n kv.2) :
    n ≤ (setTemplateNames pn h es).next ∧
    Heap.AgreesBelow n h (setTemplateNames pn h es) ∧
    HeapGE n (setTemplateNames pn h es) := by
  induction es generalizing h with
  | nil =>
    simp only [setTemplateNames]
    exact ⟨hn, agreesBelow_refl _ _, hg⟩
  | cons kv rest ih =>
    rcases kv with ⟨k, v⟩
    rcases v with pv | a
    · simp only [setTemplateNames]
      exact ih h hn hg (fun kv hkv => hes kv (List.mem_cons_of_mem _ hkv))
    · have ha : n ≤ a :=
        hes (k, .ref a) (List.mem_cons_self _ _) a rfl
      simp only [setTemplateNames]
      by_cases hisk :
          (dictGet ((h.lookup a).getD []) "project_name").isSome
      · rw [if_pos hisk]
        exact ih h hn hg
          (fun kv hkv => hes kv (List.mem_cons_of_mem _ hkv))
      · rw [if_neg hisk]
        have hg2 : HeapGE n (h.setObj a
            (dictSet ((h.lookup a).getD []) "project_name" pn)) :=
          heapGE_setObj hg (dictSet_GE (lookup_getD_GE hg ha) hpn)
        have hrec := ih
          (h.setObj a (dictSet ((h.lookup a).getD []) "project_name" pn))
          hn hg2
          (fun kv hkv => hes kv (List.mem_cons_of_mem _ hkv))
        exact ⟨hrec.1,
          agreesBelow_trans (setObj_agreesBelow h _ ha) hrec.2.1,
          hrec.2.2⟩

/-- `loadDefaultTemplateNames` frame spec. -/
theorem loadDefaultTemplateNames_spec (h : Heap) (dp tmpl : Addr)
    (n : Addr) (hn : n ≤ h.next) (hg : HeapGE n h) (hdp : n ≤ dp)
    (htm : n ≤ tmpl) :
    n ≤ (loadDefaultTemplateNames h dp tmpl).next ∧
    Heap.AgreesBelow n h (loadDefaultTemplateNames h dp tmpl) ∧
    HeapGE n (loadDefaultTemplateNames h dp tmpl) := by
  rw [loadDefaultTemplateNames]
  have hes : ∀ kv ∈ (h.lookup tmpl).getD [], ValGE n kv.2 :=
    lookup_getD_GE hg htm
  refine setTemplateNames_spec _ _ h n hn hg ?_ hes
  rcases hget : dictGet ((h.lookup dp).getD []) "autocodegen" with _ | v
  · simp only []
    exact valGE_prim _
  · rcases v with pv | a
    · simp only []
      exact valGE_prim _
    · simp only []
      have ha : n ≤ a := dictGet_GE (lookup_getD_GE hg hdp) hget a rfl
      rcases hget2 : dictGet ((h.lookup a).getD []) "project_name" with
        _ | w
      · simp only [Option.getD_none]
        exact valGE_prim _
      · simp only [Option.getD_some]
        exact dictGet_GE (lookup_getD_GE hg ha) hget2

/-- The whole of `ProjectConfig.load` leaves every pre-existing heap
address untouched: all its writes land on addresses allocated during
the call. -/
theorem ProjectConfig.load_frame (fuel : Nat) (h0 : Heap) (data : Addr)
    (troot : AcgPath) (pnd : Option String) (dirs : List String)
    (n : Addr) (hn : n ≤ h0.next) (hg : HeapGE n h0) :
    Heap.AgreesBelow n h0
      (ProjectConfig.load fuel h0 data troot pnd dirs).1 := by
  rw [ProjectConfig.load]
  simp only []
  set E1 := deepcopyAddr fuel h0 data with hE1
  set E2 := loadPopAutocodegen E1.1 E1.2 with hE2
  set H5 := loadDefaultAutocodegen E2.1 E2.2 troot pnd with hH5
  set H6 := loadAttachAutocodegen H5 E1.2 E2.2 with hH6
  set E7 := loadEnsureTemplates H6 E1.2 with hE7
  set H9 := loadMergeDirTemplates E7.1 E7.2 dirs with hH9
  have s1 := deepcopyAddr_spec fuel h0 data n hn hg
  have s2 := loadPopAutocodegen_spec E1.1 E1.2 n s1.1 s1.2.2.1 s1.2.2.2
  have s3 := loadDefaultAutocodegen_spec E2.1 E2.2 troot pnd n
    s2.1 s2.2.2.1 s2.2.2.2
  have s4 := loadAttachAutocodegen_spec H5 E1.2 E2.2 n
    s3.1 s3.2.2 s1.2.2.2 s2.2.2.2
  have s5 := loadEnsureTemplates_spec H6 E1.2 n s4.1 s4.2.2 s1.2.2.2
  have s6 := loadMergeDirTemplates_spec E7.1 E7.2 dirs n
    s5.1 s5.2.2.1 s5.2.2.2
  have s7 := loadDefaultTemplateNames_spec H9 E1.2 E7.2 n
    s6.1 s6.2.2 s1.2.2.2 s5.2.2.2
  exact agreesBelow_trans s1.2.1
    (agreesBelow_trans s2.2.1
      (agreesBelow_trans s3.2.1
        (agreesBelow_trans s4.2.1
          (agreesBelow_trans s5.2.1
            (agreesBelow_trans s6.2.1 s7.2.1)))))

mutual

/-- Reading a value only consults addresses below `n`, so two heaps
agreeing below `n` read the same trees out of below-`n`-closed
values. -/
theorem readVal_congr (fuel : Nat) (h h' : Heap) (n : Addr)
    (hag : Heap.AgreesBelow n h h') (hcl : HeapLT n h)
    (v : PyVal) (hv : ValLT n v) :
    readVal fuel h' v = readVal fuel h v := by
  match fuel, v with
  | _, .prim pv => simp only [readVal]
  | 0, .ref a => simp only [readVal]
  | fuel + 1, .ref a =>
    have ha : a < n := hv a rfl
    have hl : h'.lookup a = h.lookup a := hag a ha
    simp only [readVal, hl]
    cases hd : h.lookup a with
    | none => rfl
    | some d =>
      have he : readEntries fuel h' d = readEntries fuel h d :=
        readEntries_congr fuel h h' n hag hcl d (hcl a d hd)
      show (match readEntries fuel h' d with
        | none => none
        | some es => some (TomlVal.table es)) =
        (match readEntries fuel h d with
        | none => none
        | some es => some (TomlVal.table es))
      rw [he]
  termination_by (fuel, 0)

/-- Entry-wise version of `readVal_congr`. -/
theorem readEntries_congr (fuel : Nat) (h h' : Heap) (n : Addr)
    (hag : Heap.AgreesBelow n h h') (hcl : HeapLT n h)
    (d : PyDict) (hd : ∀ kv ∈ d, ValLT n kv.2) :
    readEntries fuel h' d = readEntries fuel h d := by
  match d with
  | [] => simp only [readEntries]
  | (k, v) :: rest =>
    have h1 := readVal_congr fuel h h' n hag hcl v
      (hd (k, v) (List.mem_cons_self _ _))
    have h2 := readEntries_congr fuel h h' n hag hcl rest
      (fun kv hkv => hd kv (List.mem_cons_of_mem _ hkv))
    simp only [readEntries, h1, h2]
  termination_by (fuel, d.length + 1)

end

/-- In a well-formed heap nothing is stored at or above `next`. -/
theorem wf_lookup_none {h : Heap} (hwf : Heap.WF h) {a : Addr}
    (ha : h.next ≤ a) : h.lookup a = none := by
  rw [Heap.lookup]
  rw [List.find?_eq_none.mpr]
  · rfl
  · intro o ho
    simp only [decide_eq_true_eq]
    intro heq
    have hlt := hwf.1 o ho
    rw [heq] at hlt
    exact absurd hlt (Nat.not_lt.mpr ha)

/-- A well-formed heap's fresh region is (vacuously) closed. -/
theorem wf_heapGE {h : Heap} (hwf : Heap.WF h) : HeapGE h.next h := by
  intro a ha d hl
  rw [wf_lookup_none hwf ha] at hl
  cases hl

/-- A well-formed heap references only below `next`. -/
theorem wf_heapLT {h : Heap} (hwf : Heap.WF h) : HeapLT h.next h := by
  intro a d hl kv hkv b heq
  rw [Heap.lookup] at hl
  rcases Option.map_eq_some'.mp hl with ⟨o, hfind, ho2⟩
  have hmem := List.mem_of_find?_eq_some hfind
  subst ho2
  exact hwf.2 o hmem kv hkv b heq

end Acg

/-- C9: every path returned by the extension sweep lies under the
given target root, its final name ends with the requested extension,
and it does not lie inside the given templates root; and when the
sweep runs with `with_dirs = true`, every directory entry of a visited
frame whose name ends with the extension (and is outside the templates
root) is included in the result. -/
theorem c9_get_paths_by_ext (target_root : AcgPath) (ext : String)
    (with_dirs : Bool) (templates_root : AcgPath) (t : Acg.FsTree) :
    (∀ p ∈ Acg.get_paths_by_ext target_root ext with_dirs
        templates_root t,
      target_root <+: p ∧
      (∃ n, p.getLast? = some n ∧ Acg.strEndsWith n ext = true) ∧
      ¬(templates_root <+: p)) ∧
    (with_dirs = true →
      ∀ fr ∈ Acg.walk target_root t, ∀ n ∈ fr.2.1,
        Acg.strEndsWith n ext = true →
        ¬(templates_root <+: fr.1 ++ [n]) →
        (fr.1 ++ [n]) ∈ Acg.get_paths_by_ext target_root ext with_dirs
          templates_root t) := by
  constructor
  · intro p hp
    rw [Acg.get_paths_by_ext, List.mem_flatMap] at hp
    obtain ⟨fr, hfr, hmem⟩ := hp
    simp only [List.mem_map, List.mem_filter] at hmem
    obtain ⟨n, ⟨hn, hq⟩, rfl⟩ := hmem
    rw [Bool.and_eq_true] at hq
    refine ⟨?_, ⟨n, ?_, hq.1⟩, ?_⟩
    · exact (Acg.walk_frames_under_root target_root t fr hfr).trans
        (List.prefix_append _ _)
    · simp
    · intro hcontra
      have := hq.2
      rw [Bool.not_eq_eq_eq_not, Bool.not_true, ← Bool.not_eq_true,
        List.isPrefixOf_iff_prefix] at this
      exact this hcontra
  · intro hwd fr hfr n hn hext hout
    rw [Acg.get_paths_by_ext, List.mem_flatMap]
    refine ⟨fr, hfr, ?_⟩
    simp only [hwd, if_pos]
    refine List.mem_map.mpr ⟨n, List.mem_filter.mpr ⟨?_, ?_⟩, rfl⟩
    · exact List.mem_append.mpr (Or.inr hn)
    · rw [Bool.and_eq_true]
      refine ⟨hext, ?_⟩
      rw [Bool.not_eq_eq_eq_not, Bool.not_true, ← Bool.not_eq_true,
        List.isPrefixOf_iff_prefix]
      exact hout

/-- Witness for C9 on a concrete tree: target root `/p`, templates
root `/p/acg`, one matching file `/p/a.mako` and a matching directory
entry `/p/d.mako`. -/
theorem c9_get_paths_by_ext_witness :
    (["p", "a.mako"] : AcgPath)
        ∈ Acg.get_paths_by_ext ["p"] ".mako" true ["p", "acg"]
          (.node ["a.mako"] [("d.mako", .node [] [])]) ∧
      ["p"] <+: (["p", "a.mako"] : AcgPath) ∧
      (["p", "d.mako"] : AcgPath)
        ∈ Acg.get_paths_by_ext ["p"] ".mako" true ["p", "acg"]
          (.node ["a.mako"] [("d.mako", .node [] [])]) := by
  have hmem : (["p", "a.mako"] : AcgPath)
      ∈ Acg.get_paths_by_ext ["p"] ".mako" true ["p", "acg"]
        (.node ["a.mako"] [("d.mako", .node [] [])]) := by
    decide
  refine ⟨hmem, ?_, ?_⟩
  · exact ((c9_get_paths_by_ext ["p"] ".mako" true ["p", "acg"]
      (.node ["a.mako"] [("d.mako", .node [] [])])).1
      ["p", "a.mako"] hmem).1
  · refine (c9_get_paths_by_ext ["p"] ".mako" true ["p", "acg"]
      (.node ["a.mako"] [("d.mako", .node [] [])])).2 rfl
      (["p"], ["d.mako"], ["a.mako"]) ?_ "d.mako" ?_ ?_ ?_
    · rw [Acg.walk]; exact List.mem_cons_self _ _
    · exact List.mem_singleton.mpr rfl
    · decide
    · decide

/-- C3: in the expansion pass, a failure while processing any file in
the sweep leaves every template source file that was present on disk
still present afterwards — no `.mako` source is deleted unless every
render in the sweep succeeded (the unlink loop runs only after the
render loop completes without raising). -/
theorem c3_mako_sources_survive_failure (stepOk : AcgPath → Bool)
    (target_root templates_root : AcgPath) (t : Acg.FsTree)
    (d : Acg.Disk) (perr : AcgPath)
    (hfail : (Acg.expand_mako_all stepOk target_root templates_root
        t d).2 = some perr) :
    ∀ s ∈ Acg.get_paths_by_ext target_root Acg.TEMPLATE_MAKO_EXT false
        templates_root t,
      s ∈ d →
      s ∈ (Acg.expand_mako_all stepOk target_root templates_root
        t d).1 := by
  intro s _ hsd
  rw [Acg.expand_mako_all] at hfail ⊢
  rcases hloop : Acg.expandLoop stepOk
      (Acg.get_paths_by_ext target_root Acg.TEMPLATE_MAKO_EXT false
        templates_root t) d with ⟨d1, e⟩
  rcases e with _ | p
  · rw [hloop] at hfail
    exact Option.noConfusion hfail
  · have := Acg.expandLoop_monotone stepOk
      (Acg.get_paths_by_ext target_root Acg.TEMPLATE_MAKO_EXT false
        templates_root t) d s hsd
    rw [hloop] at this
    exact this

/-- Witness for C3: a two-template sweep where the second template's
render raises; both sources survive.  Target root `/p`, sources
`/p/a.mako` and `/p/b.mako`. -/
theorem c3_mako_sources_survive_failure_witness :
    (Acg.expand_mako_all (fun p => p ≠ ["p", "b.mako"]) ["p"]
        ["p", "acg"] (.node ["a.mako", "b.mako"] [])
        [["p", "a.mako"], ["p", "b.mako"]]).2
      = some ["p", "b.mako"] ∧
    (["p", "a.mako"] : AcgPath)
      ∈ Acg.get_paths_by_ext ["p"] Acg.TEMPLATE_MAKO_EXT false
        ["p", "acg"] (.node ["a.mako", "b.mako"] []) ∧
    (["p", "a.mako"] : AcgPath)
      ∈ (Acg.expand_mako_all (fun p => p ≠ ["p", "b.mako"]) ["p"]
        ["p", "acg"] (.node ["a.mako", "b.mako"] [])
        [["p", "a.mako"], ["p", "b.mako"]]).1 := by
  refine ⟨by decide, by decide, ?_⟩
  exact c3_mako_sources_survive_failure (fun p => p ≠ ["p", "b.mako"])
    ["p"] ["p", "acg"] (.node ["a.mako", "b.mako"] [])
    [["p", "a.mako"], ["p", "b.mako"]] ["p", "b.mako"] (by decide)
    ["p", "a.mako"] (by decide) (by decide)

/-- C2 (code bug): for a path ending in the init-only rename marker
".ren1", the code strips `len(".rename") = 7` characters instead of
the 5-character marker: sweeping "/t/foo.ren1" with no renamer present
resolves to destination "/t/f" and probes for the sibling script
"/t/f.rename.py", while the claim requires holder "/t/foo" and sibling
"/t/foo.ren1.py"; nothing is unlinked in the no-renamer branch. -/
theorem c2_ren1_marker_stripping_bug :
    (Acg.get_rename_destination_path
        { is_file := fun _ => false, rename := fun _ => "" }
        "/t/foo.ren1" true).1 = "/t/f" ∧
    Acg.spec_rename_holder Acg.AcgExt.REN_ONCE.val "/t/foo.ren1"
      = "/t/foo" ∧
    ("/t/f" : String) ≠ "/t/foo" ∧
    Acg.probed_renamer_path "/t/foo.ren1" = "/t/f.rename.py" ∧
    Acg.spec_renamer_path Acg.AcgExt.REN_ONCE.val "/t/foo.ren1"
      = "/t/foo.ren1.py" ∧
    (Acg.get_rename_destination_path
        { is_file := fun _ => false, rename := fun _ => "" }
        "/t/foo.ren1" true).2 = [] := by
  refine ⟨?_, ?_, by decide, ?_, ?_, ?_⟩ <;> decide

/-- C6: a generator module that does not define a `generate` function,
or whose `generate` does not take exactly one parameter, makes the
generator pass raise a fatal `InvalidGeneratorError` whose message
names the offending module path, before any invocation or write
occurs; the file is never merely skipped (the error is raised, not
swallowed). -/
theorem c6_invalid_generator_fatal (gen_mod_path : String)
    (gen_mod : Acg.PyModule) (target : AcgPath)
    (invokeResult : Except String String) (writeOk : Bool)
    (hbad : gen_mod.generate_fn = none ∨
      ∃ f, gen_mod.generate_fn = some f ∧ f.argcount ≠ 1) :
    ∃ msg,
      Acg.expand_gen gen_mod_path gen_mod target invokeResult writeOk
        = ([], some (.invalidGenerator msg)) ∧
      ∃ pre post, msg = pre ++ gen_mod_path ++ post := by
  rcases hbad with hnone | ⟨f, hsome, harity⟩
  · refine ⟨Acg.noGenerateMsg gen_mod_path, ?_, "Module '",
      "' does not define a 'generate' function.", rfl⟩
    rw [Acg.expand_gen.eq_def, Acg.import_generate_func, hnone]
  · refine ⟨Acg.wrongArityMsg gen_mod_path f.argcount, ?_,
      "The 'generate' function in '",
      "' must take exactly one parameter (ctx) but it has " ++
        toString f.argcount ++ ".", ?_⟩
    · simp [Acg.expand_gen.eq_def, Acg.import_generate_func, hsome, harity]
    · rw [Acg.wrongArityMsg]
      simp [String.append_assoc]

/-- Witness for C6: a module whose `generate` takes two parameters. -/
theorem c6_invalid_generator_fatal_witness :
    ∃ msg,
      Acg.expand_gen "/p/x.gen.py" { generate_fn := some { argcount := 2 } }
        ["p", "x"] (.ok "out") true
        = ([], some (.invalidGenerator msg)) ∧
      ∃ pre post, msg = pre ++ "/p/x.gen.py" ++ post :=
  c6_invalid_generator_fatal "/p/x.gen.py"
    { generate_fn := some { argcount := 2 } } ["p", "x"] (.ok "out") true
    (Or.inr ⟨{ argcount := 2 }, rfl, by decide⟩)

/-- C7 (code bug): a missing `bootstrap` subdirectory does not make
the `generate` pipeline a raise-free no-op.  For every template and
project configuration as the loader builds them — bootstrap existing
or not — the body of `generate` raises `AttributeError` at line 387
(`template_config.target_dir` is not a declared field of
`ProjectConfigTemplate`) before the `bootstrap_path.exists()` check
runs; and the `run.py` call site raises `TypeError` even earlier,
since it passes the keyword `init` which `generate`'s parameter list
does not contain.  The claimed no-op behaviour (the empty step list
when `bootstrap` is missing, under the flat shape the body
presupposes) is what `generate_steps false ... = []` would give, and
is never reached. -/
theorem c7_missing_bootstrap_raises (bootstrap_exists : Bool)
    (template_name : String)
    (template_config : Acg.Cfg.ProjectConfigTemplate)
    (project_config : Acg.Cfg.ProjectConfig) :
    Acg.Cfg.generate_run bootstrap_exists template_name template_config
        project_config
      = .raised (Acg.attributeError "ProjectConfigTemplate"
          "target_dir") ∧
    Acg.run_generate_call_keywords.all
        (fun k => !Acg.generate_params.contains k) = true := by
  constructor
  · rfl
  · decide

/-- C4 (code bug): `run.py` computes the initializing determination as
`is_all_project_roots_empty or top_workspace_init or
config.bootstrap.init` and passes it to `generate` as a keyword
argument `init=...` — but `generate` (`_internal/expand.py` line 376)
accepts no such parameter and gates the init-only generator and
rename sweeps on `template_config.init` alone.  Concretely: with a
non-empty project root (so the all-empty disjunct is false), workspace
`init = true` and template `init = false`, `main` determines the run
to be initializing, yet the pipeline executes neither the init-only
generator sweep nor the init-only rename sweep. -/
theorem c4_init_determination_not_propagated :
    Acg.main_template_init
        (Acg.main_is_all_roots_empty id
          [([["w", "junk"]], ["w", "acg"], [])])
        true false = true ∧
    Acg.main_is_all_roots_empty id
        [([["w", "junk"]], ["w", "acg"], [])] = false ∧
    Acg.GenStep.expandGenAll Acg.AcgExt.GEN_ONCE.val
        ∉ Acg.generate_steps true "t"
          { target_dir := [], init := false, self_defence := true }
          { autocodegen :=
              { project_name := "w", project_root := ["w"],
                templates_root := ["w", "acg"] },
            templates := [] } ∧
    Acg.GenStep.processRenames Acg.AcgExt.REN_ONCE.val
        ∉ Acg.generate_steps true "t"
          { target_dir := [], init := false, self_defence := true }
          { autocodegen :=
              { project_name := "w", project_root := ["w"],
                templates_root := ["w", "acg"] },
            templates := [] } := by
  refine ⟨by decide, by decide, by decide, by decide⟩

/-- C5: in a rename sweep, the operation trace is a block of file
moves and renamer unlinks followed by a block of directory
operations, and the directory block is exactly a
copy-tree-merge-then-remove pair per deferred directory (no directory
move happens before every file move in the sweep has been issued);
and in the nested-rename scenario — a directory `D0/dlast` due for
rename containing a file `f` also due for rename, no renamer scripts
present — the file ends at `<renamed-directory>/<renamed-file>` and
no path remains under the pre-rename directory path. -/
theorem c5_rename_pass_ordering :
    (∀ (env : Acg.RenamerEnvP) (is_dir : AcgPath → Bool)
        (ps : List AcgPath),
      Acg.process_renames_trace env is_dir ps
          = (Acg.renameFilePass env is_dir ps).1
            ++ Acg.renameDirPass (Acg.renameFilePass env is_dir ps).2 ∧
      (∀ op ∈ (Acg.renameFilePass env is_dir ps).1,
        (∃ s t, op = Acg.RenOp.moveFile s t) ∨
        (∃ p, op = Acg.RenOp.unlinkFile p)) ∧
      Acg.renameDirPass (Acg.renameFilePass env is_dir ps).2
          = (Acg.renameFilePass env is_dir ps).2.flatMap
            (fun sd => [Acg.RenOp.copyTreeMerge sd.1 sd.2,
              Acg.RenOp.rmTree sd.1])) ∧
    (∀ (env : Acg.RenamerEnvP) (is_dir : AcgPath → Bool)
        (D0 : AcgPath) (dlast f : String) (d0 : Acg.Disk),
      env.is_file = (fun _ => false) →
      is_dir (D0 ++ [dlast]) = true →
      is_dir ((D0 ++ [dlast]) ++ [f]) = false →
      Acg.strEndsWith dlast Acg.AcgExt.REN.val = true →
      Acg.strEndsWith f Acg.AcgExt.REN.val = true →
      ((D0 ++ [dlast]) ++ [f]) ∈ d0 →
      ((D0 ++ [Acg.strDropRight dlast Acg.AcgExt.REN.val.length,
          Acg.strDropRight f Acg.AcgExt.REN.val.length])
        ∈ Acg.runRenOps (Acg.process_renames_trace env is_dir
            [D0 ++ [dlast], (D0 ++ [dlast]) ++ [f]]) d0 ∧
       ∀ q ∈ Acg.runRenOps (Acg.process_renames_trace env is_dir
            [D0 ++ [dlast], (D0 ++ [dlast]) ++ [f]]) d0,
         ¬(D0 ++ [dlast]) <+: q)) := by
  constructor
  · intro env is_dir ps
    exact ⟨rfl, Acg.renameFilePass_file_ops env is_dir ps,
      Acg.renameDirPass_eq_flatMap _⟩
  · intro env is_dir D0 dlast f d0 henv hdirD hfileF hlastD hlastF hF0
    have hstrip_ne : Acg.strDropRight dlast Acg.AcgExt.REN.val.length
        ≠ dlast := by
      refine Acg.strDropRight_ne dlast _ (by decide) ?_
      exact Acg.strEndsWith_length_le dlast _ hlastD
    have htrace : Acg.process_renames_trace env is_dir
        [D0 ++ [dlast], (D0 ++ [dlast]) ++ [f]]
        = [Acg.RenOp.moveFile ((D0 ++ [dlast]) ++ [f])
            ((D0 ++ [dlast]) ++ [Acg.strDropRight f
              Acg.AcgExt.REN.val.length]),
           Acg.RenOp.copyTreeMerge (D0 ++ [dlast])
            (D0 ++ [Acg.strDropRight dlast Acg.AcgExt.REN.val.length]),
           Acg.RenOp.rmTree (D0 ++ [dlast])] := by
      have hfileF2 : is_dir (D0 ++ [dlast, f]) = false := by
        simpa using hfileF
      simp [Acg.process_renames_trace, Acg.renameFilePass,
        Acg.renameDirPass, Acg.rename_destination_path,
        Acg.stripLastChars, henv, hdirD, hfileF2]
    rw [htrace]
    set dstrip := Acg.strDropRight dlast Acg.AcgExt.REN.val.length
      with hdstrip
    set fstrip := Acg.strDropRight f Acg.AcgExt.REN.val.length
      with hfstrip
    set D := D0 ++ [dlast] with hD
    set F := (D0 ++ [dlast]) ++ [f] with hF
    set destF := (D0 ++ [dlast]) ++ [fstrip] with hdestF
    set destD := D0 ++ [dstrip] with hdestD
    have hsplit : D0 ++ [dstrip, fstrip] = (D0 ++ [dstrip]) ++ [fstrip] := by
      simp
    have hDnotpre : ¬D <+: (D0 ++ [dstrip, fstrip]) := by
      rw [hsplit]
      intro hpre
      have hlen : D.length = (D0 ++ [dstrip]).length := by
        rw [hD]
        simp
      have hD_eq : D = D0 ++ [dstrip] :=
        Acg.prefix_same_length_eq hpre (List.prefix_append _ _) hlen
      rw [hD] at hD_eq
      have := List.append_cancel_left hD_eq
      exact hstrip_ne (List.singleton_injective this).symm
    have hrun : Acg.runRenOps
        [Acg.RenOp.moveFile F destF,
         Acg.RenOp.copyTreeMerge D destD,
         Acg.RenOp.rmTree D] d0
        = ((destF :: d0.filter (fun q => q ≠ F))
            ++ ((destF :: d0.filter (fun q => q ≠ F)).filter
              (fun q => D.isPrefixOf q)).map
              (fun q => destD ++ q.drop D.length)).filter
          (fun q => !D.isPrefixOf q) := by
      rfl
    rw [hrun]
    constructor
    · refine List.mem_filter.mpr ⟨?_, ?_⟩
      · refine List.mem_append_right _ ?_
        refine List.mem_map.mpr ⟨destF, ?_, ?_⟩
        · refine List.mem_filter.mpr ⟨List.mem_cons_self _ _, ?_⟩
          rw [List.isPrefixOf_iff_prefix]
          rw [hdestF, hD]
          exact List.prefix_append _ _
        · rw [hdestF, hdestD, hD]
          rw [List.drop_left]
          simp
      · rw [Bool.not_eq_eq_eq_not, Bool.not_true, ← Bool.not_eq_true,
          List.isPrefixOf_iff_prefix]
        exact hDnotpre
    · intro q hq
      have := (List.mem_filter.mp hq).2
      rw [Bool.not_eq_eq_eq_not, Bool.not_true, ← Bool.not_eq_true,
        List.isPrefixOf_iff_prefix] at this
      exact this

/-- Witness for C5's nested-rename scenario: directory
`/p/sub.rename` containing `/p/sub.rename/file.rename`, no renamer
scripts; the file ends at `/p/sub/file`. -/
theorem c5_rename_pass_ordering_witness :
    Acg.strEndsWith "sub.rename" Acg.AcgExt.REN.val = true ∧
    (["p", "sub", "file"] : AcgPath)
      ∈ Acg.runRenOps (Acg.process_renames_trace
          { is_file := fun _ => false, rename := fun _ => "" }
          (fun p => p = ["p", "sub.rename"])
          [["p"] ++ ["sub.rename"], (["p"] ++ ["sub.rename"]) ++ ["file.rename"]])
        [["p", "sub.rename", "file.rename"]] := by
  have h := (c5_rename_pass_ordering).2
    { is_file := fun _ => false, rename := fun _ => "" }
    (fun p => p = ["p", "sub.rename"]) ["p"] "sub.rename" "file.rename"
    [["p", "sub.rename", "file.rename"]]
    rfl (by decide) (by decide) (by decide) (by decide) (by decide)
  exact ⟨by decide, by simpa using h.1⟩

/-- C8: for every filename, at most one of the pipeline suffixes
declared by `AcgExt` matches as a string suffix, so no file receives
two classifications in one sweep: any two members of `acgExts` that
are both suffixes of the same filename are the same suffix. -/
theorem c8_classifier_exclusivity (name : String)
    (e1 e2 : String) (h1 : e1 ∈ Acg.acgExts) (h2 : e2 ∈ Acg.acgExts)
    (hs1 : e1.data <:+ name.data) (hs2 : e2.data <:+ name.data) :
    e1 = e2 := by
  rcases List.suffix_or_suffix_of_suffix hs1 hs2 with h | h
  · exact Acg.acgExts_pairwise_incomparable e1 h1 e2 h2 h
  · exact (Acg.acgExts_pairwise_incomparable e2 h2 e1 h1 h).symm

/-- Witness for C8 at the filename "x.gen1.py" with the suffix
".gen1.py" matching on both sides. -/
theorem c8_classifier_exclusivity_witness :
    ".gen1.py" ∈ Acg.acgExts ∧ (".gen1.py").data <:+ ("x.gen1.py").data ∧
      (".gen1.py" : String) = ".gen1.py" := by
  refine ⟨by decide, by decide, ?_⟩
  exact c8_classifier_exclusivity "x.gen1.py" ".gen1.py" ".gen1.py"
    (by decide) (by decide) (by decide) (by decide)

/-- C1 (code bug): run against the configuration objects the loader
really builds, the per-project self-defense test matches the claim
only outside the raising branch: it answers "not protected" when the
candidate equals the templates root or lies outside it, and
"protected" inside the templates root when no declared template's
directory contains the candidate; but as soon as the candidate lies
inside a declared template's directory, line 280's read of
`template_config.self_defence` raises `AttributeError` (the flag
lives at `bootstrap.self_defence`), so the test never returns the
flag, and the exception propagates through the workspace guard
instead of an OR over the projects. -/
theorem c1_self_defence_attribute_error (c : Acg.Cfg.ProjectConfig)
    (p : AcgPath) :
    (p = c.autocodegen.templates_root →
        Acg.Cfg.is_project_self_defence c p = .ok false) ∧
    (c.autocodegen.templates_root <+: p →
        p ≠ c.autocodegen.templates_root →
        (∃ t ∈ c.templates,
          (c.autocodegen.templates_root ++ [t.1]) <+: p) →
        Acg.Cfg.is_project_self_defence c p
            = .error (Acg.attributeError "ProjectConfigTemplate"
                "self_defence") ∧
        ∀ cs, Acg.Cfg.is_workspace_self_defence (c :: cs) p
            = .error (Acg.attributeError "ProjectConfigTemplate"
                "self_defence")) ∧
    (c.autocodegen.templates_root <+: p →
        p ≠ c.autocodegen.templates_root →
        (∀ t ∈ c.templates,
          ¬(c.autocodegen.templates_root ++ [t.1]) <+: p) →
        Acg.Cfg.is_project_self_defence c p = .ok true) ∧
    (¬(c.autocodegen.templates_root <+: p) →
        Acg.Cfg.is_project_self_defence c p = .ok false) := by
  refine ⟨?_, ?_, ?_, ?_⟩
  · intro hp
    simp [Acg.Cfg.is_project_self_defence, hp]
  · intro hpref hne hex
    obtain ⟨t0, hmem, hpref0⟩ := hex
    have hproj : Acg.Cfg.is_project_self_defence c p
        = .error (Acg.attributeError "ProjectConfigTemplate"
            "self_defence") := by
      unfold Acg.Cfg.is_project_self_defence
      rw [if_neg hne]
      have hin : Acg.is_file_in_directory p
          c.autocodegen.templates_root = true := by
        rw [Acg.is_file_in_directory, List.isPrefixOf_iff_prefix]
        exact hpref
      rw [if_pos hin]
      have hpred : (fun t : String × Acg.Cfg.ProjectConfigTemplate =>
          Acg.is_file_in_directory p
            (c.autocodegen.templates_root ++ [t.1])) t0 = true := by
        show Acg.is_file_in_directory p
          (c.autocodegen.templates_root ++ [t0.1]) = true
        rw [Acg.is_file_in_directory, List.isPrefixOf_iff_prefix]
        exact hpref0
      rcases hfind : c.templates.find?
          (fun t => Acg.is_file_in_directory p
            (c.autocodegen.templates_root ++ [t.1])) with _ | t
      · rw [List.find?_eq_none] at hfind
        exact absurd hpred (by simpa using hfind t0 hmem)
      · rw [hfind]
        rfl
    refine ⟨hproj, fun cs => ?_⟩
    simp only [Acg.Cfg.is_workspace_self_defence, hproj]
  · intro hpref hne hnone
    unfold Acg.Cfg.is_project_self_defence
    rw [if_neg hne]
    have hin : Acg.is_file_in_directory p
        c.autocodegen.templates_root = true := by
      rw [Acg.is_file_in_directory, List.isPrefixOf_iff_prefix]
      exact hpref
    rw [if_pos hin]
    have hfind : c.templates.find?
        (fun t => Acg.is_file_in_directory p
          (c.autocodegen.templates_root ++ [t.1])) = none := by
      rw [List.find?_eq_none]
      rintro ⟨m, tc⟩ hmem
      simp only [Acg.is_file_in_directory, Bool.not_eq_true]
      rw [← Bool.not_eq_true, List.isPrefixOf_iff_prefix]
      exact hnone (m, tc) hmem
    rw [hfind]
  · intro hout
    unfold Acg.Cfg.is_project_self_defence
    have hne : p ≠ c.autocodegen.templates_root := by
      rintro rfl
      exact hout (List.prefix_refl _)
    rw [if_neg hne]
    have hin : Acg.is_file_in_directory p
        c.autocodegen.templates_root = false := by
      rw [Acg.is_file_in_directory, ← Bool.not_eq_true,
        List.isPrefixOf_iff_prefix]
      exact hout
    rw [if_neg (by simp [hin])]

/-- Witness for C1's divergence at a concrete configuration:
templates root `/w/acg`, one declared template "t" with
`bootstrap.self_defence = true`, candidate `/w/acg/t/file`: the test
raises instead of returning the flag. -/
theorem c1_self_defence_attribute_error_witness :
    (["w", "acg"] : AcgPath) <+: ["w", "acg", "t", "file"] ∧
    Acg.Cfg.is_project_self_defence
        { autocodegen :=
            { project_name := "w", project_root := ["w"],
              templates_root := ["w", "acg"] },
          templates := [("t",
            { project_name := "w",
              bootstrap :=
                { target_dir := [], init := false,
                  self_defence := true } })] }
        ["w", "acg", "t", "file"]
      = .error (Acg.attributeError "ProjectConfigTemplate"
          "self_defence") := by
  refine ⟨⟨["t", "file"], rfl⟩, ?_⟩
  exact ((c1_self_defence_attribute_error
    { autocodegen :=
        { project_name := "w", project_root := ["w"],
          templates_root := ["w", "acg"] },
      templates := [("t",
        { project_name := "w",
          bootstrap :=
            { target_dir := [], init := false,
              self_defence := true } })] }
    ["w", "acg", "t", "file"]).2.1
    ⟨["t", "file"], rfl⟩ (by decide)
    ⟨("t",
      { project_name := "w",
        bootstrap :=
          { target_dir := [], init := false,
            self_defence := true } }),
      by decide, ⟨["file"], rfl⟩⟩).1

/-- C10: `ProjectConfig.load` never mutates the raw configuration
dict passed to it: for every well-formed heap and input dict address,
the tree value read back from the input address after the call equals
its value before the call — all defaulting and directory-derived
template merging is applied to the deep copy only. -/
theorem c10_load_input_unchanged (fuel rfuel : Nat) (h0 : Acg.Heap)
    (data : Acg.Addr) (troot : AcgPath) (pnd : Option String)
    (dirs : List String) (hwf : h0.WF) (hdata : data < h0.next) :
    Acg.readVal rfuel
        (Acg.ProjectConfig.load fuel h0 data troot pnd dirs).1
        (.ref data)
      = Acg.readVal rfuel h0 (.ref data) := by
  have hag := Acg.ProjectConfig.load_frame fuel h0 data troot pnd dirs
    h0.next (Nat.le_refl _) (Acg.wf_heapGE hwf)
  refine Acg.readVal_congr rfuel h0 _ h0.next hag (Acg.wf_heapLT hwf)
    (.ref data) ?_
  intro b heq
  cases heq
  exact hdata

/-- Witness for C10 on a concrete heap: the input dict
`{"autocodegen": {"project_name": "proj"}, "custom": "keep"}` at
address 0 reads back unchanged after `load`. -/
theorem c10_load_input_unchanged_witness :
    (⟨[(0, [("autocodegen", .ref 1), ("custom", .prim (.str "keep"))]),
       (1, [("project_name", .prim (.str "proj"))])], 2⟩ : Acg.Heap).WF ∧
    (0 : Acg.Addr) < (2 : Nat) ∧
    Acg.readVal 4
        (Acg.ProjectConfig.load 4
          ⟨[(0, [("autocodegen", .ref 1),
                 ("custom", .prim (.str "keep"))]),
            (1, [("project_name", .prim (.str "proj"))])], 2⟩
          0 ["w", "acg"] none ["t1"]).1 (.ref 0)
      = Acg.readVal 4
          ⟨[(0, [("autocodegen", .ref 1),
                 ("custom", .prim (.str "keep"))]),
            (1, [("project_name", .prim (.str "proj"))])], 2⟩
          (.ref 0) := by
  have hwf : (⟨[(0, [("autocodegen", .ref 1),
      ("custom", .prim (.str "keep"))]),
      (1, [("project_name", .prim (.str "proj"))])], 2⟩ : Acg.Heap).WF := by
    constructor
    · intro o ho
      rcases List.mem_cons.mp ho with rfl | ho'
      · decide
      · rcases List.mem_singleton.mp ho' with rfl
        decide
    · intro o ho kv hkv a heq
      rcases List.mem_cons.mp ho with rfl | ho'
      · rcases List.mem_cons.mp hkv with rfl | hkv'
        · cases heq
          decide
        · rcases List.mem_singleton.mp hkv' with rfl
          cases heq
      · rcases List.mem_singleton.mp ho' with rfl
        rcases List.mem_singleton.mp hkv with rfl
        cases heq
  exact ⟨hwf, by decide,
    c10_load_input_unchanged 4 4 _ 0 ["w", "acg"] none ["t1"] hwf
      (by decide)⟩
